import Mathlib

/-!
Verification development for the hotspot/PPPoE billing data model
(`src/app/models.py`).  The persistent schema (tables, field defaults,
uniqueness and foreign-key constraints) is embedded shallowly: `datetime`
becomes a `Date` triple ordered through a numeric key, `Decimal` money
amounts become `Int` (scaled), `Optional[T]` becomes `Option T`, JSON
columns become association lists.  The invariant-enforcing operations of
the specification (subscription lifecycle, billing reconciliation,
topology validator, alarm lifecycle, notification queue) are not present
in the source tree; they are modelled from the specification text and
marked as such in their doc comments.
-/

namespace HotspotBilling

/-- Enum `PaymentStatus` from `src/app/models.py` lines 15-19. -/
inductive PaymentStatus
  | paid
  | pending
  | expired
  | failed
deriving DecidableEq, Repr

/-- Enum `PaymentMethod` from `src/app/models.py` lines 22-25. -/
inductive PaymentMethod
  | qris
  | virtual_account
  | bank_transfer
deriving DecidableEq, Repr

/-- Enum `ConnectionType` from `src/app/models.py` lines 43-45. -/
inductive ConnectionType
  | pppoe
  | hotspot
deriving DecidableEq, Repr

/-- Enum `DeviceStatus` from `src/app/models.py` lines 28-32. -/
inductive DeviceStatus
  | active
  | down
  | error
  | maintenance
deriving DecidableEq, Repr

/-- Enum `DeviceType` from `src/app/models.py` lines 35-40. -/
inductive DeviceType
  | olt
  | odc
  | odp
  | onu
  | mikrotik
deriving DecidableEq, Repr

/-- Enum `AlarmSeverity` from `src/app/models.py` lines 48-53. -/
inductive AlarmSeverity
  | critical
  | major
  | minor
  | warning
  | info
deriving DecidableEq, Repr

/-- Enum `NotificationType` from `src/app/models.py` lines 56-59. -/
inductive NotificationType
  | telegram
  | whatsapp
  | email
deriving DecidableEq, Repr

/-- Shallow embedding of a `datetime` value as a calendar date
(year, month, day); the schema's comparisons only need a total order. -/
structure Date where
  year : Nat
  month : Nat
  day : Nat
deriving DecidableEq, Repr

/-- Numeric key giving the lexicographic order on dates. -/
def Date.key (d : Date) : Nat :=
  d.year * 10000 + d.month * 100 + d.day

/-- Boolean order on dates, through the numeric key. -/
def Date.le (a b : Date) : Bool :=
  decide (a.key ≤ b.key)

/-- JSON-typed columns store opaque payloads; embedded as association lists. -/
abbrev JsonObject := List (String × String)

/-- Error kinds of the specification (spec section 7). -/
inductive BillingError
  | NotFoundError
  | ConflictError
  | CycleError
  | InvalidConnectionError
  | InvalidStateError
  | ValidationError
deriving DecidableEq, Repr

/-- Gregorian leap-year rule, needed for calendar day arithmetic. -/
def Date.isLeapYear (y : Nat) : Bool :=
  (y % 4 == 0 && y % 100 != 0) || y % 400 == 0

/-- Number of days in a month of the Gregorian calendar. -/
def Date.daysInMonth (y m : Nat) : Nat :=
  if m == 2 then (if Date.isLeapYear y then 29 else 28)
  else if m == 4 || m == 6 || m == 9 || m == 11 then 30
  else 31

/-- Successor day in the Gregorian calendar. -/
def Date.nextDay (d : Date) : Date :=
  if d.day < Date.daysInMonth d.year d.month then ⟨d.year, d.month, d.day + 1⟩
  else if d.month < 12 then ⟨d.year, d.month + 1, 1⟩
  else ⟨d.year + 1, 1, 1⟩

/-- Calendar addition of a number of days, mirroring
`datetime + timedelta(days=n)`. -/
def Date.addDays (d : Date) : Nat → Date
  | 0 => d
  | n + 1 => Date.addDays d.nextDay n

/-- Table `pppoe_sessions` (`PPPoESession`, `src/app/models.py` lines 266-286).
The `id` primary key is `Optional[int]` assigned by the store; rows are
modelled with the id already assigned. -/
structure PPPoESession where
  id : Nat
  username : String
  customer_id : Nat
  device_id : Nat
  session_id : String
  ip_address : Option String
  mac_address : Option String
  uptime : Option Nat
  bytes_in : Option Nat
  bytes_out : Option Nat
  is_active : Bool
  start_time : Date
  end_time : Option Date
  last_update : Date
deriving DecidableEq, Repr

/-- Table `hotspot_sessions` (`HotspotSession`, `src/app/models.py`
lines 289-303). -/
structure HotspotSession where
  id : Nat
  username : String
  customer_id : Nat
  mac_address : String
  ip_address : Option String
  uptime : Option Nat
  bytes_in : Option Nat
  bytes_out : Option Nat
  is_active : Bool
  start_time : Date
  end_time : Option Date
  last_update : Date
deriving DecidableEq, Repr

/-- Column names of table `pppoe_sessions`, transcribed from
`src/app/models.py` lines 269-282. -/
def pppoeSessionFields : List String :=
  ["id", "username", "customer_id", "device_id", "session_id", "ip_address",
   "mac_address", "uptime", "bytes_in", "bytes_out", "is_active",
   "start_time", "end_time", "last_update"]

/-- Column names of table `hotspot_sessions`, transcribed from
`src/app/models.py` lines 292-303. -/
def hotspotSessionFields : List String :=
  ["id", "username", "customer_id", "mac_address", "ip_address", "uptime",
   "bytes_in", "bytes_out", "is_active", "start_time", "end_time",
   "last_update"]

/-- Foreign keys of table `pppoe_sessions`: each pair is
(column, referenced table), transcribed from the
`Field(foreign_key=...)` markers at `src/app/models.py` lines 271-272. -/
def pppoeSessionForeignKeys : List (String × String) :=
  [("customer_id", "customers"), ("device_id", "network_devices")]

/-- Foreign keys of table `hotspot_sessions`, transcribed from the single
`Field(foreign_key=...)` marker at `src/app/models.py` line 294. -/
def hotspotSessionForeignKeys : List (String × String) :=
  [("customer_id", "customers")]

/-- Table `payments` (`Payment`, `src/app/models.py` lines 177-191). -/
structure Payment where
  id : Nat
  payment_id : String
  customer_id : Nat
  invoice_id : Nat
  xendit_payment_id : Option String
  amount : Int
  payment_method : PaymentMethod
  status : PaymentStatus
  payment_date : Option Date
  xendit_webhook_data : JsonObject
  created_at : Date
  updated_at : Date
deriving DecidableEq, Repr

/-- Uniqueness constraints of table `payments`: the primary key `id` and
the column `payment_id` declared `Field(unique=True)` at
`src/app/models.py` line 181.  No other column of the table carries a
uniqueness constraint. -/
def PaymentTableOk (rows : List Payment) : Prop :=
  rows.Pairwise (fun a b => a.id ≠ b.id ∧ a.payment_id ≠ b.payment_id)

/-- Table `notification_queue` (`NotificationQueue`, `src/app/models.py`
lines 392-407). -/
structure NotificationQueue where
  id : Nat
  notification_type : NotificationType
  recipient : String
  subject : Option String
  message : String
  priority : Int
  status : String
  attempts : Nat
  last_attempt : Option Date
  scheduled_at : Date
  sent_at : Option Date
  error_message : Option String
  created_at : Date
deriving DecidableEq, Repr

/-- Row construction for `notification_queue` with the source defaults:
`priority=5`, `status="pending"`, `attempts=0`, and `None` for
`last_attempt`, `sent_at`, `error_message` (`src/app/models.py`
lines 400-406); `scheduled_at` and `created_at` default to the current
time, passed in as `now`. -/
def mkNotificationQueue (id : Nat) (nt : NotificationType)
    (recipient : String) (subject : Option String) (message : String)
    (now : Date) : NotificationQueue :=
  { id := id
    notification_type := nt
    recipient := recipient
    subject := subject
    message := message
    priority := 5
    status := "pending"
    attempts := 0
    last_attempt := none
    scheduled_at := now
    sent_at := none
    error_message := none
    created_at := now }

/-- Field-level validity of a `notification_queue` row: only the
`max_length` string constraints of `src/app/models.py` lines 397-406.
The `status` column is a plain string of at most 20 characters; no
enumeration constrains its value. -/
def NotificationQueueRowOk (r : NotificationQueue) : Prop :=
  r.recipient.length ≤ 255 ∧
  (∀ s, r.subject = some s → s.length ≤ 200) ∧
  r.message.length ≤ 2000 ∧
  r.status.length ≤ 20 ∧
  (∀ s, r.error_message = some s → s.length ≤ 500)

/-- Dispatch order of the notification queue (spec section 4.5):
priority ascending, then `scheduled_at` ascending. -/
def notifLE (a b : NotificationQueue) : Prop :=
  a.priority < b.priority ∨
    (a.priority = b.priority ∧ a.scheduled_at.key ≤ b.scheduled_at.key)

instance : DecidableRel notifLE := fun a b => by
  unfold notifLE
  infer_instance

instance : IsTotal NotificationQueue notifLE where
  total a b := by
    unfold notifLE
    rcases lt_trichotomy a.priority b.priority with h | h | h
    · exact Or.inl (Or.inl h)
    · rcases Nat.le_total a.scheduled_at.key b.scheduled_at.key with hk | hk
      · exact Or.inl (Or.inr ⟨h, hk⟩)
      · exact Or.inr (Or.inr ⟨h.symm, hk⟩)
    · exact Or.inr (Or.inl h)

instance : IsTrans NotificationQueue notifLE where
  trans a b c hab hbc := by
    unfold notifLE at *
    rcases hab with h1 | ⟨h1, h1k⟩
    · rcases hbc with h2 | ⟨h2, _⟩
      · exact Or.inl (h1.trans h2)
      · exact Or.inl (h2 ▸ h1)
    · rcases hbc with h2 | ⟨h2, h2k⟩
      · exact Or.inl (h1 ▸ h2)
      · exact Or.inr ⟨h1.trans h2, h1k.trans h2k⟩

/-- Modelled from the spec: `dequeue_ready(now)` (spec section 4.5),
absent from `src/`: returns the rows with `scheduled_at <= now` and
`status == "pending"`, ordered by priority ascending then `scheduled_at`
ascending. -/
def dequeue_ready (now : Date) (q : List NotificationQueue) :
    List NotificationQueue :=
  List.insertionSort notifLE
    (q.filter (fun r => Date.le r.scheduled_at now && r.status == "pending"))

/-- Table `device_alarms` (`DeviceAlarm`, `src/app/models.py`
lines 328-342). -/
structure DeviceAlarm where
  id : Nat
  device_id : Nat
  alarm_type : String
  severity : AlarmSeverity
  message : String
  is_acknowledged : Bool
  acknowledged_by : Option String
  acknowledged_at : Option Date
  resolved : Bool
  resolved_at : Option Date
  created_at : Date
  updated_at : Date
deriving DecidableEq, Repr

/-- Row construction for `device_alarms` with the source defaults: not
acknowledged, not resolved, both timestamps `None`
(`src/app/models.py` lines 336-342). -/
def mkDeviceAlarm (id device_id : Nat) (alarm_type : String)
    (severity : AlarmSeverity) (message : String) (now : Date) : DeviceAlarm :=
  { id := id
    device_id := device_id
    alarm_type := alarm_type
    severity := severity
    message := message
    is_acknowledged := false
    acknowledged_by := none
    acknowledged_at := none
    resolved := false
    resolved_at := none
    created_at := now
    updated_at := now }

/-- Modelled from the spec: `acknowledge(alarm, by)` (spec section 4.4),
absent from `src/`: fails with `InvalidStateError` on an already-resolved
alarm, otherwise records the acknowledging operator and time. -/
def acknowledge (a : DeviceAlarm) (who : String) (now : Date) :
    Except BillingError DeviceAlarm :=
  if a.resolved then Except.error BillingError.InvalidStateError
  else
    Except.ok
      { a with
        is_acknowledged := true
        acknowledged_by := some who
        acknowledged_at := some now
        updated_at := now }

/-- Modelled from the spec: `resolve(alarm)` (spec section 4.4), absent
from `src/`: idempotent — re-resolving a resolved alarm is a no-op —
otherwise it stamps the resolution time. -/
def resolve (a : DeviceAlarm) (now : Date) : DeviceAlarm :=
  if a.resolved then a
  else { a with resolved := true, resolved_at := some now, updated_at := now }

/-- Alarm lifecycle histories under a monotone clock (spec section 4.4:
created, then optionally acknowledged, then optionally resolved, at
nondecreasing times): `AlarmEvolves a t` holds when alarm row `a` is
producible by the lifecycle operations with all event times at most
`t`. -/
inductive AlarmEvolves : DeviceAlarm → Date → Prop
  | created (id device_id : Nat) (alarm_type : String)
      (severity : AlarmSeverity) (message : String) (t : Date) :
      AlarmEvolves (mkDeviceAlarm id device_id alarm_type severity message t) t
  | ack {a : DeviceAlarm} {t u : Date} {a' : DeviceAlarm} (who : String) :
      AlarmEvolves a t → Date.le t u = true →
      acknowledge a who u = Except.ok a' → AlarmEvolves a' u
  | res {a : DeviceAlarm} {t u : Date} :
      AlarmEvolves a t → Date.le t u = true → AlarmEvolves (resolve a u) u

/-- Freshly created sample alarm. -/
def sampleAlarm0 : DeviceAlarm :=
  mkDeviceAlarm 1 4 "los" AlarmSeverity.critical "LOS detected" ⟨2024, 1, 1⟩

/-- The sample alarm after acknowledgement on 2024-01-02. -/
def sampleAlarmAck : DeviceAlarm :=
  { sampleAlarm0 with
    is_acknowledged := true
    acknowledged_by := some "op"
    acknowledged_at := some ⟨2024, 1, 2⟩
    updated_at := ⟨2024, 1, 2⟩ }

/-- The sample alarm after resolution on 2024-01-03. -/
def sampleAlarmRes : DeviceAlarm :=
  resolve sampleAlarmAck ⟨2024, 1, 3⟩

/-- Table `network_devices` (`NetworkDevice`, `src/app/models.py`
lines 199-222).  The self-referential foreign key `parent_device_id`
(line 211) is optional: root devices have no parent. -/
structure NetworkDevice where
  id : Nat
  name : String
  device_type : DeviceType
  ip_address : String
  mac_address : Option String
  location : String
  latitude : Option Int
  longitude : Option Int
  status : DeviceStatus
  parent_device_id : Option Nat
  snmp_community : Option String
  snmp_port : Nat
  api_username : Option String
  api_password : Option String
  api_port : Option Nat
  firmware_version : Option String
  model : Option String
  serial_number : Option String
  last_seen : Option Date
  created_at : Date
  updated_at : Date
deriving DecidableEq, Repr

/-- The table `network_devices` as a row list. -/
abbrev Topology := List NetworkDevice

/-- Primary keys present in the device table. -/
def deviceIds (t : Topology) : List Nat :=
  t.map (fun d => d.id)

/-- Parent id of a device, `none` for a root or an absent id. -/
def parentOf (t : Topology) (i : Nat) : Option Nat :=
  match t.find? (fun d => d.id == i) with
  | some d => d.parent_device_id
  | none => none

/-- Fuel-bounded parent chain walked upward from `i`: the ids visited, in
order, starting with `i` itself. -/
def ancestorsFuel (t : Topology) : Nat → Nat → List Nat
  | 0, i => [i]
  | n + 1, i =>
      i :: (match parentOf t i with
            | none => []
            | some p => ancestorsFuel t n p)

/-- Whether the parent walk from `i` reaches a parentless point within
`n` steps. -/
def reachesRoot (t : Topology) : Nat → Nat → Bool
  | 0, i => (parentOf t i).isNone
  | n + 1, i =>
      match parentOf t i with
      | none => true
      | some p => reachesRoot t n p

/-- Rewrite the parent pointer of device `d`. -/
def setParent (t : Topology) (d : Nat) (pid : Option Nat) : Topology :=
  t.map (fun dev =>
    if dev.id == d then { dev with parent_device_id := pid } else dev)

/-- Modelled from the spec: `attach_device(device, parent_id)` (spec
section 4.3), absent from `src/`: walks the parent chain from
`parent_id` to the root and fails with `CycleError` if the device's id
appears in that chain; an absent device or parent id fails with
`NotFoundError` (spec section 7). -/
def attach_device (t : Topology) (d : Nat) (pid : Nat) :
    Except BillingError Topology :=
  if d ∈ ancestorsFuel t t.length pid then
    Except.error BillingError.CycleError
  else if d ∈ deviceIds t then
    if pid ∈ deviceIds t then Except.ok (setParent t d (some pid))
    else Except.error BillingError.NotFoundError
  else Except.error BillingError.NotFoundError

/-- Run `attach_device` as a state update: a failed call leaves the
device table unchanged. -/
def attachRun (t : Topology) (d : Nat) (pid : Nat) : Topology :=
  match attach_device t d pid with
  | Except.ok t' => t'
  | Except.error _ => t

/-- Modelled from the spec: device creation (the `NetworkDeviceCreate`
shape, `src/app/models.py` lines 463-476): a new row with a fresh
primary key, whose optional `parent_device_id` must reference an
existing device (foreign key, `src/app/models.py` line 211). -/
def addDevice (t : Topology) (dev : NetworkDevice) :
    Except BillingError Topology :=
  if dev.id ∈ deviceIds t then Except.error BillingError.ConflictError
  else
    match dev.parent_device_id with
    | none => Except.ok (dev :: t)
    | some pid =>
        if pid ∈ deviceIds t then Except.ok (dev :: t)
        else Except.error BillingError.NotFoundError

/-- Device tables reachable through the schema's write operations:
starting empty, adding devices, and re-parenting through the
cycle-checked `attach_device`. -/
inductive TopoReach : Topology → Prop
  | empty : TopoReach []
  | add {t : Topology} {dev : NetworkDevice} {t' : Topology} :
      TopoReach t → addDevice t dev = Except.ok t' → TopoReach t'
  | attach {t : Topology} {d pid : Nat} {t' : Topology} :
      TopoReach t → attach_device t d pid = Except.ok t' → TopoReach t'

/-- The parent walk from `i` visits exactly the ancestor ids `l`, in
order, and ends at a parentless point. -/
inductive Ascends (t : Topology) : Nat → List Nat → Prop
  | root {i : Nat} : parentOf t i = none → Ascends t i []
  | step {i p : Nat} {l : List Nat} :
      parentOf t i = some p → Ascends t p l → Ascends t i (p :: l)

/-- Well-formed device table: every parent pointer references an existing
row, and from every id the parent walk terminates without revisiting a
node. -/
def TopoWf (t : Topology) : Prop :=
  (∀ i p, parentOf t i = some p → p ∈ deviceIds t) ∧
  (∀ i, ∃ l, Ascends t i l ∧ (i :: l).Nodup)

/-- Sample device row: only `id` and `parent_device_id` vary, all other
columns take the source defaults or fixed sample values. -/
def sampleDevice (id : Nat) (pid : Option Nat) : NetworkDevice :=
  { id := id
    name := "dev"
    device_type := DeviceType.mikrotik
    ip_address := "10.0.0.1"
    mac_address := none
    location := "hq"
    latitude := none
    longitude := none
    status := DeviceStatus.active
    parent_device_id := pid
    snmp_community := none
    snmp_port := 161
    api_username := none
    api_password := none
    api_port := none
    firmware_version := none
    model := none
    serial_number := none
    last_seen := none
    created_at := ⟨2024, 1, 1⟩
    updated_at := ⟨2024, 1, 1⟩ }

/-- Sample two-device table: device 2 hangs under root device 1. -/
def topoAB : Topology :=
  [sampleDevice 2 (some 1), sampleDevice 1 none]

/-- Table `customers` (`Customer`, `src/app/models.py` lines 96-109). -/
structure Customer where
  id : Nat
  customer_code : String
  name : String
  email : Option String
  phone : Option String
  address : String
  connection_type : ConnectionType
  is_active : Bool
  created_by_id : Nat
  created_at : Date
  updated_at : Date
deriving DecidableEq, Repr

/-- Table `internet_packages` (`InternetPackage`, `src/app/models.py`
lines 121-134). -/
structure InternetPackage where
  id : Nat
  name : String
  description : String
  connection_type : ConnectionType
  bandwidth_up : Nat
  bandwidth_down : Nat
  price : Int
  validity_days : Nat
  is_active : Bool
  created_at : Date
  updated_at : Date
deriving DecidableEq, Repr

/-- Table `customer_subscriptions` (`CustomerSubscription`,
`src/app/models.py` lines 140-149). -/
structure CustomerSubscription where
  id : Nat
  customer_id : Nat
  package_id : Nat
  start_date : Date
  end_date : Date
  is_active : Bool
  created_at : Date
deriving DecidableEq, Repr

/-- Modelled from the spec: `create_subscription` (spec section 4.1) is
absent from `src/`; per the spec it rejects an overlapping active
subscription of the same customer with `ConflictError` and otherwise
computes `end_date = start_date + package.validity_days`. -/
def create_subscription (existing : List CustomerSubscription) (id : Nat)
    (customer : Customer) (pkg : InternetPackage) (start : Date) :
    Except BillingError CustomerSubscription :=
  let endDate := start.addDays pkg.validity_days
  if existing.any (fun s => s.customer_id == customer.id && s.is_active &&
      Date.le s.start_date endDate && Date.le start s.end_date) then
    Except.error BillingError.ConflictError
  else
    Except.ok
      { id := id
        customer_id := customer.id
        package_id := pkg.id
        start_date := start
        end_date := endDate
        is_active := true
        created_at := start }

/-- Modelled from the spec: per-row action of `expire_subscriptions`
(spec section 4.1), absent from `src/`: a row with
`end_date <= now` and `is_active == true` is deactivated, any other row
is left as is. -/
def expireRow (now : Date) (s : CustomerSubscription) : CustomerSubscription :=
  if Date.le s.end_date now && s.is_active then { s with is_active := false }
  else s

/-- Modelled from the spec: `expire_subscriptions(now)` (spec
section 4.1), absent from `src/`: scans all subscription rows and applies
the per-row expiry action. -/
def expire_subscriptions (now : Date) (subs : List CustomerSubscription) :
    List CustomerSubscription :=
  subs.map (expireRow now)

/-- Table `invoices` (`Invoice`, `src/app/models.py` lines 158-174). -/
structure Invoice where
  id : Nat
  invoice_number : String
  subscription_id : Nat
  xendit_invoice_id : Option String
  amount : Int
  status : PaymentStatus
  due_date : Date
  issued_date : Date
  paid_date : Option Date
  xendit_data : JsonObject
deriving DecidableEq, Repr

/-- Row construction for `invoices` with the source defaults:
`status=PaymentStatus.PENDING`, `paid_date=None`,
`xendit_invoice_id=None`, `xendit_data={}` and `issued_date` defaulting
to the current time (`src/app/models.py` lines 161-170). -/
def mkInvoice (id : Nat) (invoice_number : String) (subscription_id : Nat)
    (amount : Int) (due_date now : Date) : Invoice :=
  { id := id
    invoice_number := invoice_number
    subscription_id := subscription_id
    xendit_invoice_id := none
    amount := amount
    status := PaymentStatus.pending
    due_date := due_date
    issued_date := now
    paid_date := none
    xendit_data := [] }

/-- Invariant on `invoices` rows: the status is `paid` exactly when
`paid_date` is set. -/
def InvoicePaidInv (inv : Invoice) : Prop :=
  inv.status = PaymentStatus.paid ↔ inv.paid_date ≠ none

/-- Modelled from the spec: the invoice-status update step of
`apply_payment_webhook` (spec section 4.2), absent from `src/`: `paid`
is terminal, the status is overwritten otherwise, and `paid_date` is set
only on the first transition into `paid`. -/
def applyInvoiceStatus (inv : Invoice) (st : PaymentStatus) (now : Date) :
    Invoice :=
  if inv.status = PaymentStatus.paid then inv
  else
    { inv with
      status := st
      paid_date := if st = PaymentStatus.paid then some now else inv.paid_date }

/-- Table `webhook_logs` (`WebhookLog`, `src/app/models.py`
lines 411-422). -/
structure WebhookLog where
  id : Nat
  source : String
  event_type : String
  payload : JsonObject
  headers : JsonObject
  processed : Bool
  processing_result : Option String
  created_at : Date
  processed_at : Option Date
deriving DecidableEq, Repr

/-- Webhook payload shape `PaymentWebhook` (`src/app/models.py`
lines 489-494).  Modelled from the spec: the spec's handler looks the
invoice up by `xendit_invoice_id` (spec section 4.2); the source stores
that correlation id inside the opaque `webhook_data`, here it is carried
as the explicit field `xendit_invoice_id`. -/
structure PaymentWebhook where
  payment_id : String
  status : PaymentStatus
  amount : Int
  payment_method : PaymentMethod
  webhook_data : JsonObject
  xendit_invoice_id : String
deriving DecidableEq, Repr

/-- Persistent state touched by billing reconciliation: the four tables
involved in webhook handling. -/
structure BillingState where
  subscriptions : List CustomerSubscription
  invoices : List Invoice
  payments : List Payment
  webhook_logs : List WebhookLog
deriving DecidableEq, Repr

/-- Modelled from the spec: the idempotent update of an existing
`payments` row keyed by `xendit_payment_id` (spec section 4.2), absent
from `src/`: it overwrites exactly the payload-derived columns, so that
re-delivering an identical payload rewrites identical values. -/
def updatePaymentFromWebhook (p : Payment) (w : PaymentWebhook) : Payment :=
  { p with
    xendit_payment_id := some w.payment_id
    amount := w.amount
    payment_method := w.payment_method
    status := w.status
    xendit_webhook_data := w.webhook_data }

/-- Modelled from the spec: creation of a new `payments` row from a first
webhook delivery (spec section 4.2), absent from `src/`. -/
def newPaymentFromWebhook (w : PaymentWebhook) (inv : Invoice)
    (customer_id pid : Nat) (now : Date) : Payment :=
  { id := pid
    payment_id := w.payment_id
    customer_id := customer_id
    invoice_id := inv.id
    xendit_payment_id := some w.payment_id
    amount := w.amount
    payment_method := w.payment_method
    status := w.status
    payment_date := some now
    xendit_webhook_data := w.webhook_data
    created_at := now
    updated_at := now }

/-- Customer owning an invoice, resolved through its subscription row. -/
def invoiceCustomerId (s : BillingState) (inv : Invoice) : Nat :=
  match s.subscriptions.find? (fun su => su.id == inv.subscription_id) with
  | some su => su.customer_id
  | none => 0

/-- Modelled from the spec: the `webhook_logs` row written on every
delivery, processed or not (spec sections 4.2 and 7), absent from
`src/`. -/
def mkWebhookLog (lid : Nat) (w : PaymentWebhook) (ok : Bool)
    (result : String) (now : Date) : WebhookLog :=
  { id := lid
    source := "xendit"
    event_type := "payment"
    payload := w.webhook_data
    headers := []
    processed := ok
    processing_result := some result
    created_at := now
    processed_at := if ok then some now else none }

/-- Invoice-table step of webhook handling: the invoice matching the
payload's `xendit_invoice_id` gets the status update, others stay. -/
def invStep (w : PaymentWebhook) (now : Date) (i : Invoice) : Invoice :=
  if i.xendit_invoice_id == some w.xendit_invoice_id then
    applyInvoiceStatus i w.status now
  else i

/-- Payment-table step of webhook handling: the payment row matching the
payload's gateway payment id is rewritten from the payload, others
stay. -/
def payStep (w : PaymentWebhook) (p : Payment) : Payment :=
  if p.xendit_payment_id == some w.payment_id then
    updatePaymentFromWebhook p w
  else p

/-- Modelled from the spec: `apply_payment_webhook(payload)` (spec
section 4.2), absent from `src/`: looks the invoice up by
`xendit_invoice_id` and logs a failure when absent; otherwise upserts the
`payments` row keyed by `xendit_payment_id`, updates the invoice status
(with `paid` terminal and `paid_date` set on first transition into
`paid`), and logs the delivery. -/
def apply_payment_webhook (s : BillingState) (w : PaymentWebhook)
    (now : Date) : BillingState :=
  if s.invoices.any (fun i => i.xendit_invoice_id == some w.xendit_invoice_id)
  then
    let invoices' := s.invoices.map (invStep w now)
    let payments' :=
      if s.payments.any (fun p => p.xendit_payment_id == some w.payment_id)
      then s.payments.map (payStep w)
      else
        match s.invoices.find?
            (fun i => i.xendit_invoice_id == some w.xendit_invoice_id) with
        | some inv =>
            s.payments ++ [newPaymentFromWebhook w inv
              (invoiceCustomerId s inv) (s.payments.length + 1) now]
        | none => s.payments
    { s with
      invoices := invoices'
      payments := payments'
      webhook_logs :=
        mkWebhookLog (s.webhook_logs.length + 1) w true "ok" now ::
          s.webhook_logs }
  else
    { s with
      webhook_logs :=
        mkWebhookLog (s.webhook_logs.length + 1) w false "invoice not found"
          now :: s.webhook_logs }

/-- Sample payment row used to exhibit schema-representable states. -/
def samplePaymentA : Payment :=
  { id := 1
    payment_id := "pay-001"
    customer_id := 7
    invoice_id := 3
    xendit_payment_id := some "xnd-42"
    amount := 150000
    payment_method := PaymentMethod.qris
    status := PaymentStatus.paid
    payment_date := some ⟨2024, 1, 5⟩
    xendit_webhook_data := []
    created_at := ⟨2024, 1, 5⟩
    updated_at := ⟨2024, 1, 5⟩ }

/-- Second sample payment row: a distinct row that shares
`xendit_payment_id` with `samplePaymentA`. -/
def samplePaymentB : Payment :=
  { samplePaymentA with id := 2, payment_id := "pay-002" }

/-- C3 counterexample: the claim says every session row carries a foreign
key to a network device, but table `hotspot_sessions` declares no foreign
key to `network_devices` and has no `device_id` column at all
(`src/app/models.py` lines 289-303). -/
theorem hotspot_session_lacks_device_reference :
    (hotspotSessionForeignKeys.map Prod.snd).contains "network_devices" =
        false ∧
    hotspotSessionFields.contains "device_id" = false := by
  exact ⟨rfl, by decide⟩

/-- C3 (amended): every `pppoe_sessions` row references both a customer
and a network device (`customer_id` and `device_id` foreign keys), while
a `hotspot_sessions` row references only a customer: its foreign keys
target exactly the table `customers`, none targets `network_devices`. -/
theorem session_references :
    ("customer_id", "customers") ∈ pppoeSessionForeignKeys ∧
    ("device_id", "network_devices") ∈ pppoeSessionForeignKeys ∧
    ("customer_id", "customers") ∈ hotspotSessionForeignKeys ∧
    hotspotSessionForeignKeys.map Prod.snd = ["customers"] := by
  exact ⟨by decide, by decide, by decide, rfl⟩

/-- C9: in table `payments` the column `payment_id` is unique (no two
distinct rows of a valid table share it), while `xendit_payment_id` is
optional and carries no uniqueness constraint: a valid table holding two
distinct rows with the same non-`None` `xendit_payment_id` exists. -/
theorem payment_uniqueness_constraints :
    (∀ rows : List Payment, PaymentTableOk rows →
      ∀ p ∈ rows, ∀ q ∈ rows, p ≠ q → p.payment_id ≠ q.payment_id) ∧
    (∃ rows : List Payment, PaymentTableOk rows ∧
      ∃ p ∈ rows, ∃ q ∈ rows, p ≠ q ∧
        p.xendit_payment_id ≠ none ∧
        p.xendit_payment_id = q.xendit_payment_id) := by
  constructor
  · intro rows hok p hp q hq hne
    have hsymm : Symmetric
        (fun a b : Payment => a.id ≠ b.id ∧ a.payment_id ≠ b.payment_id) := by
      intro a b h
      exact ⟨fun e => h.1 e.symm, fun e => h.2 e.symm⟩
    exact (hok.forall hsymm hp hq hne).2
  · refine ⟨[samplePaymentA, samplePaymentB], ?_, samplePaymentA, ?_,
      samplePaymentB, ?_, ?_, ?_, ?_⟩
    · unfold PaymentTableOk
      simp [samplePaymentA, samplePaymentB]
    · simp
    · simp
    · decide
    · decide
    · decide

/-- C9 witness: instantiating the uniqueness half on the concrete valid
two-row table shows the two sample rows differ in `payment_id`. -/
theorem payment_uniqueness_constraints_witness :
    samplePaymentA.payment_id ≠ samplePaymentB.payment_id := by
  refine payment_uniqueness_constraints.1 [samplePaymentA, samplePaymentB]
    ?_ samplePaymentA (by simp) samplePaymentB (by simp) (by decide)
  unfold PaymentTableOk
  simp [samplePaymentA, samplePaymentB]

/-- C10: `notification_queue.status` is an unconstrained string of at most
20 characters, not a closed enum — a valid row whose status lies outside
pending/sent/failed is representable — and a newly created row defaults
to status "pending", attempts 0, priority 5, with `sent_at`,
`last_attempt` and `error_message` all `None`. -/
theorem notification_queue_status_open :
    (∀ id nt recipient subject message now,
      (mkNotificationQueue id nt recipient subject message now).status =
          "pending" ∧
      (mkNotificationQueue id nt recipient subject message now).attempts = 0 ∧
      (mkNotificationQueue id nt recipient subject message now).priority = 5 ∧
      (mkNotificationQueue id nt recipient subject message now).sent_at =
          none ∧
      (mkNotificationQueue id nt recipient subject message now).last_attempt =
          none ∧
      (mkNotificationQueue id nt recipient subject message now).error_message =
          none) ∧
    (∃ r : NotificationQueue, NotificationQueueRowOk r ∧
      r.status ∉ (["pending", "sent", "failed"] : List String)) := by
  constructor
  · intro id nt recipient subject message now
    exact ⟨rfl, rfl, rfl, rfl, rfl, rfl⟩
  · refine ⟨{ mkNotificationQueue 1 NotificationType.email "a@b.c" none "hi"
        ⟨2024, 1, 1⟩ with status := "queued" }, ?_, ?_⟩
    · refine ⟨by decide, ?_, by decide, by decide, ?_⟩
      · intro s hs
        simp [mkNotificationQueue] at hs
      · intro s hs
        simp [mkNotificationQueue] at hs
    · decide

/-- Sample customer used to instantiate lifecycle scenarios. -/
def sampleCustomer : Customer :=
  { id := 7
    customer_code := "CUST-007"
    name := "A"
    email := none
    phone := none
    address := "Street 1"
    connection_type := ConnectionType.pppoe
    is_active := true
    created_by_id := 1
    created_at := ⟨2023, 12, 1⟩
    updated_at := ⟨2023, 12, 1⟩ }

/-- Sample 30-day package used to instantiate lifecycle scenarios. -/
def samplePackage : InternetPackage :=
  { id := 2
    name := "Home 30"
    description := ""
    connection_type := ConnectionType.pppoe
    bandwidth_up := 10
    bandwidth_down := 50
    price := 150000
    validity_days := 30
    is_active := true
    created_at := ⟨2023, 12, 1⟩
    updated_at := ⟨2023, 12, 1⟩ }

/-- Subscription produced by the sample `create_subscription` call. -/
def sampleCreated : CustomerSubscription :=
  { id := 1
    customer_id := 7
    package_id := 2
    start_date := ⟨2024, 1, 1⟩
    end_date := ⟨2024, 1, 31⟩
    is_active := true
    created_at := ⟨2024, 1, 1⟩ }

/-- Generic list fact: mapping a function that fixes every element of a
list leaves the list unchanged. -/
theorem map_eq_self_of_forall {α : Type} (f : α → α) :
    ∀ l : List α, (∀ a ∈ l, f a = a) → l.map f = l := by
  intro l h
  induction l with
  | nil => rfl
  | cons a t ih =>
      simp only [List.map_cons, h a (by simp)]
      rw [ih (fun b hb => h b (by simp [hb]))]

/-- The invoice-status update never touches the gateway correlation id. -/
theorem applyInvoiceStatus_xid (inv : Invoice) (st : PaymentStatus)
    (n : Date) :
    (applyInvoiceStatus inv st n).xendit_invoice_id = inv.xendit_invoice_id := by
  unfold applyInvoiceStatus
  split
  · rfl
  · rfl

/-- Re-applying the same status to an invoice is a fixed point, whatever
the clock values. -/
theorem applyInvoiceStatus_fix (inv : Invoice) (st : PaymentStatus)
    (n₁ n₂ : Date) :
    applyInvoiceStatus (applyInvoiceStatus inv st n₁) st n₂ =
      applyInvoiceStatus inv st n₁ := by
  unfold applyInvoiceStatus
  by_cases h : inv.status = PaymentStatus.paid
  · simp [h]
  · by_cases hst : st = PaymentStatus.paid
    · simp [h, hst]
    · simp [h, hst]

/-- The per-invoice webhook step preserves the correlation id. -/
theorem invStep_xid (w : PaymentWebhook) (n : Date) (i : Invoice) :
    (invStep w n i).xendit_invoice_id = i.xendit_invoice_id := by
  unfold invStep
  split
  · exact applyInvoiceStatus_xid i w.status n
  · rfl

/-- The per-invoice webhook step is idempotent across clock values. -/
theorem invStep_fix (w : PaymentWebhook) (n₁ n₂ : Date) (i : Invoice) :
    invStep w n₂ (invStep w n₁ i) = invStep w n₁ i := by
  unfold invStep
  by_cases hp : (i.xendit_invoice_id == some w.xendit_invoice_id) = true
  · simp [hp, applyInvoiceStatus_xid, applyInvoiceStatus_fix]
  · simp [hp]

/-- The payment rewrite stamps the gateway key it matched on. -/
theorem updatePaymentFromWebhook_key (p : Payment) (w : PaymentWebhook) :
    (updatePaymentFromWebhook p w).xendit_payment_id = some w.payment_id :=
  rfl

/-- The per-payment webhook step preserves whether the row matches the
payload's gateway key. -/
theorem payStep_keymatch (w : PaymentWebhook) (p : Payment) :
    ((payStep w p).xendit_payment_id == some w.payment_id) =
      (p.xendit_payment_id == some w.payment_id) := by
  unfold payStep
  by_cases hp : (p.xendit_payment_id == some w.payment_id) = true
  · simp [hp, updatePaymentFromWebhook_key]
  · simp [hp]

/-- The per-payment webhook step is idempotent. -/
theorem payStep_fix (w : PaymentWebhook) (p : Payment) :
    payStep w (payStep w p) = payStep w p := by
  unfold payStep
  by_cases hp : (p.xendit_payment_id == some w.payment_id) = true
  · simp [hp, updatePaymentFromWebhook_key, updatePaymentFromWebhook]
  · simp [hp]

/-- A freshly created payment row is a fixed point of the per-payment
webhook step for the payload it came from. -/
theorem payStep_new (w : PaymentWebhook) (inv : Invoice) (c pid : Nat)
    (n : Date) :
    payStep w (newPaymentFromWebhook w inv c pid n) =
      newPaymentFromWebhook w inv c pid n := by
  simp [payStep, newPaymentFromWebhook, updatePaymentFromWebhook]

/-- Mapping the invoice step twice equals mapping it once. -/
theorem invoices_map_fix (w : PaymentWebhook) (n₁ n₂ : Date)
    (l : List Invoice) :
    (l.map (invStep w n₁)).map (invStep w n₂) = l.map (invStep w n₁) := by
  rw [List.map_map]
  exact List.map_congr_left (fun a _ => invStep_fix w n₁ n₂ a)

/-- The invoice step does not change which rows match the payload. -/
theorem invoices_any_map (w : PaymentWebhook) (n : Date) (l : List Invoice) :
    ((l.map (invStep w n)).any
        (fun i => i.xendit_invoice_id == some w.xendit_invoice_id)) =
      (l.any (fun i => i.xendit_invoice_id == some w.xendit_invoice_id)) := by
  induction l with
  | nil => rfl
  | cons a t ih => simp [invStep_xid, ih]

/-- The payment step does not change which rows match the payload. -/
theorem payments_any_map (w : PaymentWebhook) (l : List Payment) :
    ((l.map (payStep w)).any
        (fun p => p.xendit_payment_id == some w.payment_id)) =
      (l.any (fun p => p.xendit_payment_id == some w.payment_id)) := by
  induction l with
  | nil => rfl
  | cons a t ih => simp [payStep_keymatch, ih]

/-- Mapping the payment step twice equals mapping it once. -/
theorem payments_map_fix (w : PaymentWebhook) (l : List Payment) :
    (l.map (payStep w)).map (payStep w) = l.map (payStep w) := by
  rw [List.map_map]
  exact List.map_congr_left (fun a _ => payStep_fix w a)

/-- When no existing row matches the payload, mapping the payment step
over the table extended with the fresh row changes nothing. -/
theorem payments_map_append_new (w : PaymentWebhook) (l : List Payment)
    (inv : Invoice) (c pid : Nat) (n : Date)
    (h : l.any (fun p => p.xendit_payment_id == some w.payment_id) = false) :
    (l ++ [newPaymentFromWebhook w inv c pid n]).map (payStep w) =
      l ++ [newPaymentFromWebhook w inv c pid n] := by
  rw [List.map_append]
  have hl : l.map (payStep w) = l := by
    apply map_eq_self_of_forall
    intro p hp
    have hnp := List.any_eq_false.mp h p hp
    unfold payStep
    simp at hnp
    simp [hnp]
  rw [hl]
  simp [payStep_new]

/-- Per-row expiry is idempotent. -/
theorem expireRow_fix (now : Date) (s : CustomerSubscription) :
    expireRow now (expireRow now s) = expireRow now s := by
  unfold expireRow
  by_cases h : (Date.le s.end_date now && s.is_active) = true
  · simp [h]
  · simp [h]

/-- C1: an `invoices` row is `paid` exactly when `paid_date` is set: the
row construction with the source defaults (status pending, paid_date
None) satisfies the equivalence, the status-update step preserves it, and
webhook handling — the only modelled operation that rewrites invoices —
maps tables of invariant-satisfying rows to tables of
invariant-satisfying rows. -/
theorem invoice_paid_iff_paid_date :
    (∀ id num subid amt due now,
      InvoicePaidInv (mkInvoice id num subid amt due now)) ∧
    (∀ inv st now,
      InvoicePaidInv inv → InvoicePaidInv (applyInvoiceStatus inv st now)) ∧
    (∀ s w now, (∀ i ∈ s.invoices, InvoicePaidInv i) →
      ∀ i ∈ (apply_payment_webhook s w now).invoices, InvoicePaidInv i) := by
  have hmk : ∀ (id : Nat) num subid (amt : Int) due now,
      InvoicePaidInv (mkInvoice id num subid amt due now) := by
    intro id num subid amt due now
    simp [InvoicePaidInv, mkInvoice]
  have hstep : ∀ inv st now,
      InvoicePaidInv inv → InvoicePaidInv (applyInvoiceStatus inv st now) := by
    intro inv st now hinv
    unfold applyInvoiceStatus
    by_cases h : inv.status = PaymentStatus.paid
    · simpa [h] using hinv
    · by_cases hst : st = PaymentStatus.paid
      · simp [InvoicePaidInv, h, hst]
      · have hpd : inv.paid_date = none := by
          by_contra hne
          exact h (hinv.mpr hne)
        simp [InvoicePaidInv, h, hst, hpd]
  refine ⟨hmk, hstep, ?_⟩
  intro s w now hall i hi
  unfold apply_payment_webhook at hi
  by_cases hI : (s.invoices.any
      (fun i => i.xendit_invoice_id == some w.xendit_invoice_id)) = true
  · simp only [hI, if_true] at hi
    rcases List.mem_map.mp hi with ⟨j, hj, rfl⟩
    unfold invStep
    by_cases hp : (j.xendit_invoice_id == some w.xendit_invoice_id) = true
    · simpa [hp] using hstep j w.status now (hall j hj)
    · simpa [hp] using hall j hj
  · simp only [hI, if_false] at hi
    exact hall i hi

/-- C1 witness: the invariant holds for a freshly created invoice driven
into `paid` by a status update. -/
theorem invoice_paid_iff_paid_date_witness :
    InvoicePaidInv (applyInvoiceStatus
      (mkInvoice 1 "INV-001" 11 150000 ⟨2024, 1, 10⟩ ⟨2024, 1, 1⟩)
      PaymentStatus.paid ⟨2024, 1, 5⟩) :=
  invoice_paid_iff_paid_date.2.1 _ PaymentStatus.paid ⟨2024, 1, 5⟩
    (invoice_paid_iff_paid_date.1 1 "INV-001" 11 150000 ⟨2024, 1, 10⟩
      ⟨2024, 1, 1⟩)

/-- Webhook handling never touches the subscription table. -/
theorem apply_webhook_subscriptions (s : BillingState) (w : PaymentWebhook)
    (n : Date) :
    (apply_payment_webhook s w n).subscriptions = s.subscriptions := by
  unfold apply_payment_webhook
  split
  · rfl
  · rfl

/-- When the payload's invoice exists, webhook handling maps the invoice
step over the invoice table. -/
theorem apply_webhook_invoices_pos (s : BillingState) (w : PaymentWebhook)
    (n : Date)
    (hI : (s.invoices.any
      (fun i => i.xendit_invoice_id == some w.xendit_invoice_id)) = true) :
    (apply_payment_webhook s w n).invoices = s.invoices.map (invStep w n) := by
  simp [apply_payment_webhook, hI]

/-- When the payload's invoice is missing, webhook handling only logs:
invoices and payments are untouched. -/
theorem apply_webhook_neg (s : BillingState) (w : PaymentWebhook) (n : Date)
    (hI : (s.invoices.any
      (fun i => i.xendit_invoice_id == some w.xendit_invoice_id)) = false) :
    (apply_payment_webhook s w n).invoices = s.invoices ∧
    (apply_payment_webhook s w n).payments = s.payments := by
  constructor
  · simp [apply_payment_webhook, hI]
  · simp [apply_payment_webhook, hI]

/-- When the invoice exists and a payment row already carries the
payload's gateway key, webhook handling maps the payment step over the
payment table. -/
theorem apply_webhook_payments_upd (s : BillingState) (w : PaymentWebhook)
    (n : Date)
    (hI : (s.invoices.any
      (fun i => i.xendit_invoice_id == some w.xendit_invoice_id)) = true)
    (hP : (s.payments.any
      (fun p => p.xendit_payment_id == some w.payment_id)) = true) :
    (apply_payment_webhook s w n).payments = s.payments.map (payStep w) := by
  simp [apply_payment_webhook, hI, hP]

/-- When the invoice exists and no payment row carries the payload's
gateway key, webhook handling appends exactly one fresh payment row. -/
theorem apply_webhook_payments_new (s : BillingState) (w : PaymentWebhook)
    (n : Date) (inv : Invoice)
    (hI : (s.invoices.any
      (fun i => i.xendit_invoice_id == some w.xendit_invoice_id)) = true)
    (hP : (s.payments.any
      (fun p => p.xendit_payment_id == some w.payment_id)) = false)
    (hF : s.invoices.find?
      (fun i => i.xendit_invoice_id == some w.xendit_invoice_id) = some inv) :
    (apply_payment_webhook s w n).payments =
      s.payments ++ [newPaymentFromWebhook w inv (invoiceCustomerId s inv)
        (s.payments.length + 1) n] := by
  simp [apply_payment_webhook, hI, hP, hF]

/-- C2: delivering the same webhook payload twice is idempotent on the
payment table and on the invoice table — the second application changes
neither — and a single delivery adds at most one payment row. -/
theorem webhook_idempotent (s : BillingState) (w : PaymentWebhook)
    (n₁ n₂ : Date) :
    (apply_payment_webhook (apply_payment_webhook s w n₁) w n₂).payments =
      (apply_payment_webhook s w n₁).payments ∧
    (apply_payment_webhook (apply_payment_webhook s w n₁) w n₂).invoices =
      (apply_payment_webhook s w n₁).invoices ∧
    (apply_payment_webhook s w n₁).payments.length ≤
      s.payments.length + 1 := by
  by_cases hI : (s.invoices.any
      (fun i => i.xendit_invoice_id == some w.xendit_invoice_id)) = true
  · have hinv1 := apply_webhook_invoices_pos s w n₁ hI
    have hI1 : ((apply_payment_webhook s w n₁).invoices.any
        (fun i => i.xendit_invoice_id == some w.xendit_invoice_id)) = true := by
      rw [hinv1, invoices_any_map]
      exact hI
    have hinv2 := apply_webhook_invoices_pos (apply_payment_webhook s w n₁)
      w n₂ hI1
    have hinvfix :
        (apply_payment_webhook (apply_payment_webhook s w n₁) w n₂).invoices =
          (apply_payment_webhook s w n₁).invoices := by
      rw [hinv2, hinv1, invoices_map_fix]
    by_cases hP : (s.payments.any
        (fun p => p.xendit_payment_id == some w.payment_id)) = true
    · have hpay1 := apply_webhook_payments_upd s w n₁ hI hP
      have hP1 : ((apply_payment_webhook s w n₁).payments.any
          (fun p => p.xendit_payment_id == some w.payment_id)) = true := by
        rw [hpay1, payments_any_map]
        exact hP
      have hpay2 := apply_webhook_payments_upd (apply_payment_webhook s w n₁)
        w n₂ hI1 hP1
      refine ⟨?_, hinvfix, ?_⟩
      · rw [hpay2, hpay1]
        exact payments_map_fix w s.payments
      · rw [hpay1]
        simp
    · have hP0 : (s.payments.any
          (fun p => p.xendit_payment_id == some w.payment_id)) = false := by
        simpa using hP
      rcases List.any_eq_true.mp hI with ⟨x, hx, hpx⟩
      cases hF : s.invoices.find?
          (fun i => i.xendit_invoice_id == some w.xendit_invoice_id) with
      | none => exact absurd hpx (List.find?_eq_none.mp hF x hx)
      | some inv =>
          have hpay1 := apply_webhook_payments_new s w n₁ inv hI hP0 hF
          have hP1 : ((apply_payment_webhook s w n₁).payments.any
              (fun p => p.xendit_payment_id == some w.payment_id)) = true := by
            rw [hpay1]
            simp [newPaymentFromWebhook]
          have hpay2 := apply_webhook_payments_upd
            (apply_payment_webhook s w n₁) w n₂ hI1 hP1
          refine ⟨?_, hinvfix, ?_⟩
          · rw [hpay2, hpay1]
            exact payments_map_append_new w s.payments inv _ _ n₁ hP0
          · rw [hpay1]
            simp
  · have hI0 : (s.invoices.any
        (fun i => i.xendit_invoice_id == some w.xendit_invoice_id)) = false := by
      simpa using hI
    obtain ⟨hinv1, hpay1⟩ := apply_webhook_neg s w n₁ hI0
    have hI1 : ((apply_payment_webhook s w n₁).invoices.any
        (fun i => i.xendit_invoice_id == some w.xendit_invoice_id)) = false := by
      rw [hinv1]
      exact hI0
    obtain ⟨hinv2, hpay2⟩ := apply_webhook_neg (apply_payment_webhook s w n₁)
      w n₂ hI1
    refine ⟨?_, ?_, ?_⟩
    · rw [hpay2, hpay1]
    · rw [hinv2, hinv1]
    · rw [hpay1]
      exact Nat.le_succ _

set_option maxRecDepth 8000 in
/-- C4: `create_subscription` sets `end_date = start_date +
package.validity_days` and activates the row; thirty days after
2024-01-01 is 2024-01-31; `expire_subscriptions(now)` deactivates every
row with `end_date <= now` still active, and re-invoking it with the
same `now` changes no row. -/
theorem subscription_lifecycle :
    (∀ existing id c pkg start sub,
      create_subscription existing id c pkg start = Except.ok sub →
      sub.end_date = Date.addDays start pkg.validity_days ∧
      sub.start_date = start ∧ sub.is_active = true) ∧
    Date.addDays ⟨2024, 1, 1⟩ 30 = (⟨2024, 1, 31⟩ : Date) ∧
    (∀ now subs, ∀ s ∈ expire_subscriptions now subs,
      Date.le s.end_date now = true → s.is_active = false) ∧
    (∀ now subs,
      expire_subscriptions now (expire_subscriptions now subs) =
        expire_subscriptions now subs) := by
  refine ⟨?_, by decide, ?_, ?_⟩
  · intro existing id c pkg start sub h
    simp only [create_subscription] at h
    split at h
    · exact Except.noConfusion h
    · cases h
      exact ⟨rfl, rfl, rfl⟩
  · intro now subs s hs hle
    rcases List.mem_map.mp hs with ⟨t, _, rfl⟩
    by_cases h : (Date.le t.end_date now && t.is_active) = true
    · simp [expireRow, h]
    · have hb : (Date.le t.end_date now && t.is_active) = false := by
        simpa using h
      simp [expireRow, h] at hle ⊢
      simp [hle] at hb
      exact hb
  · intro now subs
    unfold expire_subscriptions
    rw [List.map_map]
    exact List.map_congr_left (fun a _ => expireRow_fix now a)

set_option maxRecDepth 8000 in
/-- C4 witness: the sample creation succeeds with end date 2024-01-31 and
expiring at 2024-02-01 deactivates the row. -/
theorem subscription_lifecycle_witness :
    sampleCreated.end_date =
        Date.addDays ⟨2024, 1, 1⟩ samplePackage.validity_days ∧
    (expireRow ⟨2024, 2, 1⟩ sampleCreated).is_active = false := by
  constructor
  · exact (subscription_lifecycle.1 [] 1 sampleCustomer samplePackage
      ⟨2024, 1, 1⟩ sampleCreated (by rfl)).1
  · exact subscription_lifecycle.2.2.1 ⟨2024, 2, 1⟩ [sampleCreated]
      (expireRow ⟨2024, 2, 1⟩ sampleCreated)
      (by simp [expire_subscriptions]) (by decide)

/-- C6: `dequeue_ready(now)` returns exactly the pending rows scheduled
at or before `now` — it is a permutation of the filtered table, so a row
with a later `scheduled_at` or any other status never appears — sorted by
priority ascending then `scheduled_at` ascending. -/
theorem dequeue_ready_spec (now : Date) (q : List NotificationQueue) :
    (∀ r, r ∈ dequeue_ready now q ↔
      r ∈ q ∧ Date.le r.scheduled_at now = true ∧ r.status = "pending") ∧
    List.Perm (dequeue_ready now q)
      (q.filter (fun r =>
        Date.le r.scheduled_at now && r.status == "pending")) ∧
    List.Sorted notifLE (dequeue_ready now q) := by
  refine ⟨?_, ?_, ?_⟩
  · intro r
    unfold dequeue_ready
    rw [List.mem_insertionSort, List.mem_filter]
    simp [Bool.and_eq_true, beq_iff_eq, and_assoc]
  · exact List.perm_insertionSort notifLE _
  · exact List.sorted_insertionSort notifLE _

/-- The date order is reflexive. -/
theorem Date.le_refl (d : Date) : Date.le d d = true := by
  simp [Date.le]

/-- The date order is transitive. -/
theorem Date.le_trans {a b c : Date} (h1 : Date.le a b = true)
    (h2 : Date.le b c = true) : Date.le a c = true := by
  simp [Date.le] at *
  exact Nat.le_trans h1 h2

/-- Structural invariant of alarm lifecycle histories: every recorded
timestamp is at most the clock, an unresolved alarm has no resolution
time, and the acknowledgement time never exceeds the resolution time. -/
theorem alarmEvolves_inv {a : DeviceAlarm} {t : Date}
    (h : AlarmEvolves a t) :
    (∀ x, a.acknowledged_at = some x → Date.le x t = true) ∧
    (∀ y, a.resolved_at = some y → Date.le y t = true) ∧
    (a.resolved = false → a.resolved_at = none) ∧
    (∀ x y, a.acknowledged_at = some x → a.resolved_at = some y →
      Date.le x y = true) := by
  induction h with
  | created id device_id alarm_type severity message t =>
      refine ⟨?_, ?_, ?_, ?_⟩
      · intro x hx
        exact Option.noConfusion hx
      · intro y hy
        exact Option.noConfusion hy
      · intro _
        rfl
      · intro x y hx _
        exact Option.noConfusion hx
  | @ack a t u a' who h hle hok ih =>
      rcases ih with ⟨ih1, ih2, ih3, ih4⟩
      unfold acknowledge at hok
      split at hok
      · exact Except.noConfusion hok
      · rename_i hres
        have hrf : a.resolved = false := by simpa using hres
        have hnone : a.resolved_at = none := ih3 hrf
        cases hok
        refine ⟨?_, ?_, ?_, ?_⟩
        · intro x hx
          have hux : u = x := by simpa using hx
          subst hux
          exact Date.le_refl _
        · intro y hy
          have hy' : a.resolved_at = some y := hy
          rw [hnone] at hy'
          exact Option.noConfusion hy'
        · intro _
          exact hnone
        · intro x y _ hy
          have hy' : a.resolved_at = some y := hy
          rw [hnone] at hy'
          exact Option.noConfusion hy'
  | @res a t u h hle ih =>
      rcases ih with ⟨ih1, ih2, ih3, ih4⟩
      by_cases hr : a.resolved = true
      · have hres_eq : resolve a u = a := by simp [resolve, hr]
        rw [hres_eq]
        exact ⟨fun x hx => Date.le_trans (ih1 x hx) hle,
          fun y hy => Date.le_trans (ih2 y hy) hle, ih3, ih4⟩
      · have hrf : a.resolved = false := by simpa using hr
        have hres_eq : resolve a u =
            { a with
              resolved := true
              resolved_at := some u
              updated_at := u } := by
          simp [resolve, hrf]
        rw [hres_eq]
        refine ⟨?_, ?_, ?_, ?_⟩
        · intro x hx
          exact Date.le_trans (ih1 x hx) hle
        · intro y hy
          have huy : u = y := by simpa using hy
          subst huy
          exact Date.le_refl _
        · intro hfalse
          simp at hfalse
        · intro x y hx hy
          have huy : u = y := by simpa using hy
          subst huy
          exact Date.le_trans (ih1 x hx) hle

/-- C7: acknowledging an already-resolved alarm fails with
`InvalidStateError` and yields no updated row, re-resolving a resolved
alarm is a no-op returning the row unchanged, and along every lifecycle
history with a monotone clock, an alarm carrying both timestamps has
`acknowledged_at <= resolved_at`. -/
theorem alarm_lifecycle :
    (∀ a who now, a.resolved = true →
      acknowledge a who now = Except.error BillingError.InvalidStateError) ∧
    (∀ a now, a.resolved = true → resolve a now = a) ∧
    (∀ a t, AlarmEvolves a t → ∀ x y, a.acknowledged_at = some x →
      a.resolved_at = some y → Date.le x y = true) := by
  refine ⟨?_, ?_, ?_⟩
  · intro a who now h
    simp [acknowledge, h]
  · intro a now h
    simp [resolve, h]
  · intro a t h x y hx hy
    exact (alarmEvolves_inv h).2.2.2 x y hx hy

/-- C7 witness: on the concrete resolved sample alarm, acknowledgement
fails, resolution is a no-op, and the recorded acknowledgement time
2024-01-02 precedes the resolution time 2024-01-03. -/
theorem alarm_lifecycle_witness :
    acknowledge sampleAlarmRes "op2" ⟨2024, 1, 4⟩ =
        Except.error BillingError.InvalidStateError ∧
    resolve sampleAlarmRes ⟨2024, 1, 4⟩ = sampleAlarmRes ∧
    Date.le ⟨2024, 1, 2⟩ ⟨2024, 1, 3⟩ = true := by
  have hresolved : sampleAlarmRes.resolved = true := by
    simp [sampleAlarmRes, sampleAlarmAck, sampleAlarm0, resolve,
      mkDeviceAlarm]
  have h0 : AlarmEvolves sampleAlarm0 ⟨2024, 1, 1⟩ :=
    AlarmEvolves.created 1 4 "los" AlarmSeverity.critical "LOS detected"
      ⟨2024, 1, 1⟩
  have h1 : AlarmEvolves sampleAlarmAck ⟨2024, 1, 2⟩ :=
    AlarmEvolves.ack "op" h0 (by decide) (by rfl)
  have h2 : AlarmEvolves sampleAlarmRes ⟨2024, 1, 3⟩ :=
    AlarmEvolves.res h1 (by decide)
  refine ⟨alarm_lifecycle.1 sampleAlarmRes "op2" ⟨2024, 1, 4⟩ hresolved,
    alarm_lifecycle.2.1 sampleAlarmRes ⟨2024, 1, 4⟩ hresolved,
    alarm_lifecycle.2.2 sampleAlarmRes ⟨2024, 1, 3⟩ h2 ⟨2024, 1, 2⟩
      ⟨2024, 1, 3⟩ (by rfl) (by rfl)⟩

/-- An id absent from the device table has no parent pointer. -/
theorem parentOf_not_mem {t : Topology} {i : Nat} (h : i ∉ deviceIds t) :
    parentOf t i = none := by
  unfold parentOf
  have hfind : t.find? (fun d => d.id == i) = none := by
    rw [List.find?_eq_none]
    intro d hd hbeq
    have hdi : d.id = i := by simpa using hbeq
    exact h (hdi ▸ List.mem_map_of_mem (fun d => d.id) hd)
  rw [hfind]

/-- Re-parenting keeps the set of primary keys. -/
theorem deviceIds_setParent (t : Topology) (d : Nat) (pid : Option Nat) :
    deviceIds (setParent t d pid) = deviceIds t := by
  unfold deviceIds setParent
  rw [List.map_map]
  apply List.map_congr_left
  intro a _
  by_cases h : (a.id == d) = true
  · have had : a.id = d := by simpa using h
    simp [had]
  · have had : ¬ a.id = d := by simpa using h
    simp [had]

/-- Cons form of the parent lookup. -/
theorem parentOf_cons (dev : NetworkDevice) (t : Topology) (i : Nat) :
    parentOf (dev :: t) i =
      if dev.id == i then dev.parent_device_id else parentOf t i := by
  unfold parentOf
  rw [List.find?_cons]
  by_cases h : (dev.id == i) = true
  · simp [h]
  · simp [h]

/-- Re-parenting device `d` rewrites its parent pointer, provided the
device exists. -/
theorem parentOf_setParent_self {t : Topology} {d : Nat} (pid : Option Nat)
    (h : d ∈ deviceIds t) : parentOf (setParent t d pid) d = pid := by
  induction t with
  | nil => simp [deviceIds] at h
  | cons a t ih =>
      show parentOf
        ((if a.id == d then { a with parent_device_id := pid } else a) ::
          setParent t d pid) d = pid
      by_cases ha : (a.id == d) = true
      · rw [if_pos ha, parentOf_cons]
        simp [ha]
      · rw [if_neg ha, parentOf_cons, if_neg ha]
        apply ih
        have hcons : deviceIds (a :: t) = a.id :: deviceIds t := rfl
        rw [hcons, List.mem_cons] at h
        rcases h with h1 | h2
        · exact absurd (by simp [h1]) ha
        · exact h2

/-- Re-parenting device `d` leaves every other parent pointer
unchanged. -/
theorem parentOf_setParent_of_ne {t : Topology} {d : Nat}
    (pid : Option Nat) {i : Nat} (h : i ≠ d) :
    parentOf (setParent t d pid) i = parentOf t i := by
  induction t with
  | nil => rfl
  | cons a t ih =>
      show parentOf
        ((if a.id == d then { a with parent_device_id := pid } else a) ::
          setParent t d pid) i = parentOf (a :: t) i
      by_cases ha : (a.id == d) = true
      · have had : a.id = d := by simpa using ha
        have hne : (a.id == i) = false := by
          rw [had]
          exact beq_eq_false_iff_ne.mpr (Ne.symm h)
        rw [if_pos ha, parentOf_cons, parentOf_cons]
        rw [if_neg (by simp [hne]), if_neg (by simp [hne])]
        exact ih
      · rw [if_neg ha, parentOf_cons, parentOf_cons]
        by_cases hai : (a.id == i) = true
        · rw [if_pos hai, if_pos hai]
        · rw [if_neg hai, if_neg hai]
          exact ih

/-- The parent walk is deterministic. -/
theorem ascends_unique {t : Topology} {i : Nat} {l₁ l₂ : List Nat}
    (h₁ : Ascends t i l₁) (h₂ : Ascends t i l₂) : l₁ = l₂ := by
  induction h₁ generalizing l₂ with
  | root hp =>
      cases h₂ with
      | root _ => rfl
      | step hq _ =>
          rw [hp] at hq
          exact Option.noConfusion hq
  | step hp h ih =>
      cases h₂ with
      | root hq =>
          rw [hq] at hp
          exact Option.noConfusion hp
      | step hq h' =>
          rw [hp] at hq
          injection hq with he
          subst he
          rw [ih h']

/-- Every id on a walk admits a walk that is a suffix of the original
one. -/
theorem ascends_suffix {t : Topology} {i : Nat} {l : List Nat}
    (h : Ascends t i l) :
    ∀ y ∈ i :: l, ∃ m, Ascends t y m ∧ (y :: m) <:+ (i :: l) := by
  induction h with
  | root hp =>
      intro y hy
      rcases List.mem_cons.mp hy with rfl | hy'
      · exact ⟨[], Ascends.root hp, List.suffix_refl _⟩
      · exact absurd hy' (List.not_mem_nil y)
  | step hp h ih =>
      intro y hy
      rcases List.mem_cons.mp hy with rfl | hy'
      · exact ⟨_, Ascends.step hp h, List.suffix_refl _⟩
      · rcases ih y hy' with ⟨m, hm, hsuf⟩
        exact ⟨m, hm, hsuf.trans (List.suffix_cons _ _)⟩

/-- When parent pointers reference existing rows, every id on a walk
after the start references an existing row. -/
theorem ascends_mem_ids {t : Topology}
    (hpe : ∀ i p, parentOf t i = some p → p ∈ deviceIds t) :
    ∀ {i : Nat} {l : List Nat}, Ascends t i l →
      ∀ y ∈ l, y ∈ deviceIds t := by
  intro i l h
  induction h with
  | root _ =>
      intro y hy
      exact absurd hy (List.not_mem_nil y)
  | step hp h ih =>
      intro y hy
      rcases List.mem_cons.mp hy with rfl | hy'
      · exact hpe _ _ hp
      · exact ih y hy'

/-- A walk avoiding the single rewritten id survives a parent rewrite. -/
theorem ascends_agree {t t' : Topology} {d : Nat}
    (hagree : ∀ j, j ≠ d → parentOf t' j = parentOf t j) :
    ∀ {i : Nat} {l : List Nat}, Ascends t i l → d ∉ i :: l →
      Ascends t' i l := by
  intro i l h
  induction h with
  | @root i hp =>
      intro hd
      have hne : i ≠ d := by
        rintro rfl
        exact hd (List.mem_cons_self _ _)
      exact Ascends.root ((hagree i hne).trans hp)
  | @step i p l hp h ih =>
      intro hd
      have hne : i ≠ d := by
        rintro rfl
        exact hd (List.mem_cons_self _ _)
      have hd' : d ∉ p :: l := fun hmem => hd (List.mem_cons_of_mem _ hmem)
      exact Ascends.step ((hagree i hne).trans hp) (ih hd')

/-- A walk in the base table can be rerouted through the rewritten id:
if in the new table `d` walks along `m`, then a base walk reaching `d`
after `pre` yields a new walk `pre ++ d :: m`. -/
theorem ascends_splice {t t' : Topology} {d : Nat}
    (hagree : ∀ j, j ≠ d → parentOf t' j = parentOf t j) :
    ∀ (i : Nat) (pre : List Nat) {suf m : List Nat},
      Ascends t i (pre ++ d :: suf) → d ∉ i :: pre →
      Ascends t' d m → Ascends t' i (pre ++ d :: m) := by
  intro i pre
  induction pre generalizing i with
  | nil =>
      intro suf m hasc hdni hm
      cases hasc with
      | step hp h =>
          have hne : i ≠ d := by
            rintro rfl
            exact hdni (List.mem_cons_self _ _)
          exact Ascends.step ((hagree i hne).trans hp) hm
  | cons q pre ih =>
      intro suf m hasc hdni hm
      cases hasc with
      | step hp h =>
          have hne : i ≠ d := by
            rintro rfl
            exact hdni (List.mem_cons_self _ _)
          have hd' : d ∉ q :: pre := fun hmem =>
            hdni (List.mem_cons_of_mem _ hmem)
          exact Ascends.step ((hagree i hne).trans hp) (ih q h hd' hm)

/-- The executable chain equals the walk, given enough fuel. -/
theorem ancestorsFuel_eq {t : Topology} {i : Nat} {l : List Nat}
    (h : Ascends t i l) :
    ∀ n, l.length ≤ n → ancestorsFuel t n i = i :: l := by
  induction h with
  | @root i hp =>
      intro n _
      cases n with
      | zero => rfl
      | succ n => simp [ancestorsFuel, hp]
  | @step i p l hp h ih =>
      intro n hn
      cases n with
      | zero => simp at hn
      | succ n =>
          have hlen : l.length ≤ n := Nat.le_of_succ_le_succ (by simpa using hn)
          show i :: (match parentOf t i with
            | none => []
            | some p => ancestorsFuel t n p) = i :: p :: l
          rw [hp]
          show i :: ancestorsFuel t n p = i :: p :: l
          rw [ih n hlen]

/-- A walk of length `k` certifies the reachability check with fuel
`k`. -/
theorem ascends_reachesRoot {t : Topology} {i : Nat} {l : List Nat}
    (h : Ascends t i l) : reachesRoot t l.length i = true := by
  induction h with
  | @root i hp => simp [reachesRoot, hp]
  | @step i p l hp h ih =>
      show reachesRoot t (l.length + 1) i = true
      simp only [reachesRoot, hp]
      exact ih

/-- The reachability check is monotone in the fuel. -/
theorem reachesRoot_mono {t : Topology} :
    ∀ (n i : Nat), reachesRoot t n i = true →
      ∀ m, n ≤ m → reachesRoot t m i = true := by
  intro n
  induction n with
  | zero =>
      intro i h m _
      have hp : parentOf t i = none := by
        simpa [reachesRoot, Option.isNone_iff_eq_none] using h
      cases m with
      | zero => simp [reachesRoot, hp]
      | succ m => simp [reachesRoot, hp]
  | succ n ih =>
      intro i h m hm
      cases m with
      | zero => exact absurd hm (by simp)
      | succ m =>
          cases hp : parentOf t i with
          | none => simp [reachesRoot, hp]
          | some p =>
              have h' : reachesRoot t n p = true := by
                simpa [reachesRoot, hp] using h
              have hrec := ih p h' m (Nat.le_of_succ_le_succ hm)
              simpa [reachesRoot, hp] using hrec

/-- A rootless id passes the reachability check with any fuel. -/
theorem reachesRoot_of_parent_none {t : Topology} {i : Nat}
    (hp : parentOf t i = none) : ∀ n, reachesRoot t n i = true := by
  intro n
  cases n with
  | zero => simp [reachesRoot, hp]
  | succ n => simp [reachesRoot, hp]

/-- A duplicate-free list of ids drawn from a table is no longer than the
table's id column. -/
theorem nodup_subset_length {l ids : List Nat} (hnd : l.Nodup)
    (hsub : ∀ y ∈ l, y ∈ ids) : l.length ≤ ids.length :=
  (List.subperm_of_subset hnd hsub).length_le

/-- In a well-formed table the parent chain from any id reaches a root
within the table size. -/
theorem topoWf_reaches {t : Topology} (hwf : TopoWf t) (i : Nat) :
    reachesRoot t t.length i = true := by
  rcases hwf with ⟨hpe, hwalk⟩
  by_cases hmem : i ∈ deviceIds t
  · rcases hwalk i with ⟨l, hasc, hnd⟩
    have hsub : ∀ y ∈ i :: l, y ∈ deviceIds t := by
      intro y hy
      rcases List.mem_cons.mp hy with rfl | hy'
      · exact hmem
      · exact ascends_mem_ids hpe hasc y hy'
    have hlen : (i :: l).length ≤ (deviceIds t).length :=
      nodup_subset_length hnd hsub
    have hlen' : l.length + 1 ≤ t.length := by
      simpa [deviceIds] using hlen
    exact reachesRoot_mono _ _ (ascends_reachesRoot hasc) _
      (Nat.le_of_succ_le hlen')
  · exact reachesRoot_of_parent_none (parentOf_not_mem hmem) _

/-- Adding a fresh row whose parent, if any, exists preserves
well-formedness. -/
theorem topoWf_cons {t : Topology} {dev : NetworkDevice}
    (hwf : TopoWf t) (hfresh : dev.id ∉ deviceIds t)
    (hpar : dev.parent_device_id = none ∨
      ∃ pid, dev.parent_device_id = some pid ∧ pid ∈ deviceIds t) :
    TopoWf (dev :: t) := by
  rcases hwf with ⟨hpe, hwalk⟩
  have hagree : ∀ j, j ≠ dev.id → parentOf (dev :: t) j = parentOf t j := by
    intro j hj
    rw [parentOf_cons, if_neg ?hc]
    case hc =>
      simp only [beq_iff_eq]
      exact fun e => hj e.symm
  have hself : parentOf (dev :: t) dev.id = dev.parent_device_id := by
    rw [parentOf_cons, if_pos (by simp)]
  constructor
  · intro i p hp
    rw [parentOf_cons] at hp
    by_cases hd : (dev.id == i) = true
    · rw [if_pos hd] at hp
      rcases hpar with hnone | ⟨pid, hpid, hpidmem⟩
      · rw [hnone] at hp
        exact Option.noConfusion hp
      · rw [hpid] at hp
        injection hp with he
        subst he
        exact List.mem_cons_of_mem _ hpidmem
    · rw [if_neg hd] at hp
      exact List.mem_cons_of_mem _ (hpe i p hp)
  · intro i
    by_cases hi : i = dev.id
    · subst hi
      rcases hpar with hnone | ⟨pid, hpid, hpidmem⟩
      · exact ⟨[], Ascends.root (hself.trans hnone), by simp⟩
      · rcases hwalk pid with ⟨lp, hascp, hndp⟩
        have hpid_ne : pid ≠ dev.id := fun e => hfresh (e ▸ hpidmem)
        have hsub : ∀ y ∈ lp, y ∈ deviceIds t := ascends_mem_ids hpe hascp
        have hnotin : dev.id ∉ pid :: lp := by
          intro hm
          rcases List.mem_cons.mp hm with he | hm'
          · exact hpid_ne he.symm
          · exact hfresh (hsub _ hm')
        have hascp' : Ascends (dev :: t) pid lp :=
          ascends_agree hagree hascp hnotin
        exact ⟨pid :: lp, Ascends.step (hself.trans hpid) hascp',
          List.nodup_cons.mpr ⟨hnotin, hndp⟩⟩
    · rcases hwalk i with ⟨l, hasc, hnd⟩
      have hsub : ∀ y ∈ l, y ∈ deviceIds t := ascends_mem_ids hpe hasc
      have hnotin : dev.id ∉ i :: l := by
        intro hm
        rcases List.mem_cons.mp hm with he | hm'
        · exact hi he.symm
        · exact hfresh (hsub _ hm')
      exact ⟨l, ascends_agree hagree hasc hnotin, hnd⟩

/-- `addDevice` preserves well-formedness. -/
theorem topoWf_addDevice {t : Topology} {dev : NetworkDevice}
    {t' : Topology} (hwf : TopoWf t)
    (h : addDevice t dev = Except.ok t') : TopoWf t' := by
  unfold addDevice at h
  split at h
  · exact Except.noConfusion h
  · rename_i hfresh
    split at h
    · rename_i hnone
      cases h
      exact topoWf_cons hwf hfresh (Or.inl hnone)
    · rename_i pid hpid
      split at h
      · rename_i hpidmem
        cases h
        exact topoWf_cons hwf hfresh (Or.inr ⟨pid, hpid, hpidmem⟩)
      · exact Except.noConfusion h

/-- A successful `attach_device` preserves well-formedness: the
cycle-checked re-parenting keeps every parent chain rooted and
duplicate-free. -/
theorem topoWf_attach {t : Topology} {d pid : Nat} {t' : Topology}
    (hwf : TopoWf t) (h : attach_device t d pid = Except.ok t') :
    TopoWf t' := by
  have hpe := hwf.1
  have hwalk := hwf.2
  unfold attach_device at h
  split at h
  · exact Except.noConfusion h
  · rename_i hcyc
    split at h
    · rename_i hd
      split at h
      · rename_i hpidmem
        cases h
        have hagree : ∀ j, j ≠ d →
            parentOf (setParent t d (some pid)) j = parentOf t j :=
          fun j hj => parentOf_setParent_of_ne _ hj
        have hself : parentOf (setParent t d (some pid)) d = some pid :=
          parentOf_setParent_self _ hd
        have hids : deviceIds (setParent t d (some pid)) = deviceIds t :=
          deviceIds_setParent t d (some pid)
        rcases hwalk pid with ⟨lp, hascp, hndp⟩
        have hsubp : ∀ y ∈ lp, y ∈ deviceIds t := ascends_mem_ids hpe hascp
        have hsubp' : ∀ y ∈ pid :: lp, y ∈ deviceIds t := by
          intro y hy
          rcases List.mem_cons.mp hy with rfl | hy'
          · exact hpidmem
          · exact hsubp y hy'
        have hlplen : lp.length ≤ t.length := by
          have hle := nodup_subset_length hndp hsubp'
          have h2 : lp.length + 1 ≤ t.length := by
            simpa [deviceIds] using hle
          exact Nat.le_of_succ_le h2
        have hanc : ancestorsFuel t t.length pid = pid :: lp :=
          ancestorsFuel_eq hascp t.length hlplen
        have hdnotin : d ∉ pid :: lp := by
          intro hm
          exact hcyc (by rw [hanc]; exact hm)
        have hascp' : Ascends (setParent t d (some pid)) pid lp :=
          ascends_agree hagree hascp hdnotin
        have hascd : Ascends (setParent t d (some pid)) d (pid :: lp) :=
          Ascends.step hself hascp'
        have hnd_d : (d :: pid :: lp).Nodup :=
          List.nodup_cons.mpr ⟨hdnotin, hndp⟩
        constructor
        · intro i p hp
          rw [hids]
          by_cases hi : i = d
          · subst hi
            rw [hself] at hp
            injection hp with he
            subst he
            exact hpidmem
          · rw [hagree i hi] at hp
            exact hpe i p hp
        · intro i
          by_cases hi : i = d
          · subst hi
            exact ⟨pid :: lp, hascd, hnd_d⟩
          · rcases hwalk i with ⟨l, hasc, hnd⟩
            by_cases hdin : d ∈ i :: l
            · have hdl : d ∈ l := by
                rcases List.mem_cons.mp hdin with he | hm
                · exact absurd he.symm hi
                · exact hm
              rcases List.append_of_mem hdl with ⟨pre, suf, rfl⟩
              have hsplit : (i :: (pre ++ d :: suf)) =
                  (i :: pre) ++ (d :: suf) := by simp
              have hnd' : ((i :: pre) ++ (d :: suf)).Nodup := by
                rw [← hsplit]
                exact hnd
              rcases List.nodup_append.mp hnd' with ⟨hnd1, hnd2, hdisj⟩
              have hdni : d ∉ i :: pre := fun hm =>
                hdisj hm (List.mem_cons_self d suf)
              refine ⟨pre ++ d :: pid :: lp, ?_, ?_⟩
              · exact ascends_splice hagree i pre hasc hdni hascd
              · have hsplit2 : (i :: (pre ++ d :: pid :: lp)) =
                    (i :: pre) ++ (d :: pid :: lp) := by simp
                rw [hsplit2]
                refine List.nodup_append.mpr ⟨hnd1, hnd_d, ?_⟩
                intro y hy hyin
                rcases List.mem_cons.mp hyin with rfl | hy2
                · exact hdni hy
                · rcases ascends_suffix hascp y hy2 with ⟨my, hmy, hsufy⟩
                  have hdny : d ∉ y :: my := fun hm => hdnotin (hsufy.mem hm)
                  have hyil : y ∈ i :: (pre ++ d :: suf) := by
                    rw [hsplit]
                    exact List.mem_append_left _ hy
                  rcases ascends_suffix hasc y hyil with ⟨my', hmy', hsufy'⟩
                  have hmm : my' = my := ascends_unique hmy' hmy
                  subst hmm
                  have hsufd : (d :: suf) <:+ (i :: (pre ++ d :: suf)) := by
                    rw [hsplit]
                    exact List.suffix_append _ _
                  rcases List.suffix_or_suffix_of_suffix hsufy' hsufd with
                    hcase | hcase
                  · exact hdisj hy (hcase.mem (List.mem_cons_self y _))
                  · exact hdny (hcase.mem (List.mem_cons_self d suf))
            · exact ⟨l, ascends_agree hagree hasc hdin, hnd⟩
      · exact Except.noConfusion h
    · exact Except.noConfusion h

/-- Every device table reachable through the write operations is
well-formed. -/
theorem topoReach_wf {t : Topology} (h : TopoReach t) : TopoWf t := by
  induction h with
  | empty =>
      constructor
      · intro i p hp
        exact Option.noConfusion hp
      · intro i
        exact ⟨[], Ascends.root rfl, by simp⟩
  | add h hok ih => exact topoWf_addDevice ih hok
  | attach h hok ih => exact topoWf_attach ih hok

/-- C8: in every device table reachable through the schema's write
operations, following `parent_device_id` from any id terminates within
`N` steps, where `N` is the total device count — the parent relation
contains no cycle. -/
theorem device_chain_terminates (t : Topology) (h : TopoReach t) (i : Nat) :
    reachesRoot t t.length i = true :=
  topoWf_reaches (topoReach_wf h) i

/-- C8 witness: the two-device sample table is reachable and the chain
from device 2 terminates within the table size. -/
theorem device_chain_terminates_witness :
    reachesRoot topoAB topoAB.length 2 = true := by
  have h1 : TopoReach [sampleDevice 1 none] :=
    @TopoReach.add [] (sampleDevice 1 none) [sampleDevice 1 none]
      TopoReach.empty (by rfl)
  have h2 : TopoReach topoAB :=
    @TopoReach.add [sampleDevice 1 none] (sampleDevice 2 (some 1)) topoAB
      h1 (by rfl)
  exact device_chain_terminates topoAB h2 2

/-- C5: `attach_device(D, parent_id=P)` fails with `CycleError` whenever
`D`'s id appears in the parent chain walked from `P` toward the root,
and the failing call leaves the device table unchanged. -/
theorem attach_device_cycle (t : Topology) (d pid : Nat)
    (h : d ∈ ancestorsFuel t t.length pid) :
    attach_device t d pid = Except.error BillingError.CycleError ∧
    attachRun t d pid = t := by
  have he : attach_device t d pid = Except.error BillingError.CycleError := by
    unfold attach_device
    rw [if_pos h]
  refine ⟨he, ?_⟩
  unfold attachRun
  rw [he]

/-- C5 witness: attaching device 1 beneath its own child 2 in the sample
table fails with `CycleError` and leaves the table unchanged. -/
theorem attach_device_cycle_witness :
    attach_device topoAB 1 2 = Except.error BillingError.CycleError ∧
    attachRun topoAB 1 2 = topoAB := by
  have hm : 1 ∈ ancestorsFuel topoAB topoAB.length 2 := by decide
  exact attach_device_cycle topoAB 1 2 hm

end HotspotBilling
